import Mathlib

/-!
Verification development for the RAG pipeline of this repository:
chunker (`splitText`), cosine similarity, vector-store create/load/delete/list,
retrieval ordering, the chatbot answer synthesizer, and the topic suggester.

JavaScript strings are modelled as `List Char`, JS numbers as `ℚ` (with
`Option ℚ` where `NaN`/`undefined` can arise), and the external embedding /
language-model calls as explicit parameters.  Filesystem state is passed
explicitly.  Potentially non-terminating loops take a fuel argument and
return `none` when the fuel runs out.
-/

/-- One JS string, modelled as its list of characters. -/
abbrev JStr := List Char

/-- The loop of `splitText` (src/unnamed/part_003 lines 7-30).  Each iteration
with `startIndex < text.length` computes `endIndex = min (startIndex +
chunkSize) text.length`, pushes `text.slice(startIndex, endIndex)`, sets
`startIndex` to `endIndex - chunkOverlap` clamped at 0 (which is exactly
truncated `ℕ` subtraction), and breaks only when the new start is `≥
text.length`.  `none` means the fuel ran out, i.e. the concrete loop has not
terminated within `fuel` iterations. -/
def splitTextGo (text : JStr) (chunkSize chunkOverlap : ℕ) :
    ℕ → ℕ → List JStr → Option (List JStr)
  | 0, _, _ => none
  | fuel + 1, startIndex, chunks =>
    if startIndex < text.length then
      let endIndex := min (startIndex + chunkSize) text.length
      let chunks' := chunks ++ [(text.drop startIndex).take (endIndex - startIndex)]
      let start' := endIndex - chunkOverlap
      if text.length ≤ start' then some chunks'
      else splitTextGo text chunkSize chunkOverlap fuel start' chunks'
    else some chunks

/-- `splitText(text, chunkSize, chunkOverlap)` run with `fuel` loop iterations. -/
def splitText (text : JStr) (chunkSize chunkOverlap fuel : ℕ) : Option (List JStr) :=
  splitTextGo text chunkSize chunkOverlap fuel 0 []

/-- JS addition where `none` stands for `NaN` (or `undefined` entering
arithmetic): any `NaN` operand makes the result `NaN`. -/
def jsAdd : Option ℚ → Option ℚ → Option ℚ
  | some x, some y => some (x + y)
  | _, _ => none

/-- JS multiplication with `NaN`/`undefined` propagation. -/
def jsMul : Option ℚ → Option ℚ → Option ℚ
  | some x, some y => some (x * y)
  | _, _ => none

/-- The accumulator loop of `cosineSimilarity` (src/unnamed/part_003 lines
52-64): `for (i = 0; i < a.length; i++)` reads `a[i]` and `b[i]` and updates
`dotProduct`, `normA`, `normB`.  The list `a` is consumed one element per
iteration; `b[i]` is `b.head?` of the remaining part of `b`, which is `none`
(JS `undefined`) once `b` is exhausted — exactly the out-of-range read of the
source. -/
def cosineGo : List ℚ → List ℚ → (Option ℚ × Option ℚ × Option ℚ) →
    Option ℚ × Option ℚ × Option ℚ
  | [], _, acc => acc
  | x :: xs, ys, (d, na, nb) =>
    cosineGo xs ys.tail
      (jsAdd d (jsMul (some x) ys.head?),
       jsAdd na (jsMul (some x) (some x)),
       jsAdd nb (jsMul ys.head? ys.head?))

/-- The three accumulators `(dotProduct, normA, normB)` of `cosineSimilarity`
after the loop, or `none` components where the JS value is `NaN`.  The
returned score of the source is `dotProduct / (Math.sqrt(normA) *
Math.sqrt(normB) + 1e-10)`; since the square root is real-valued, that final
expression is stated at the level of `ℝ` in the theorems about this
definition. -/
def cosineParts (a b : List ℚ) : Option (ℚ × ℚ × ℚ) :=
  match cosineGo a b (some 0, some 0, some 0) with
  | (some d, some na, some nb) => some (d, na, nb)
  | _ => none

/-- Mathematical dot product of two rational vectors (extra trailing
components of the longer vector are ignored). -/
def dotSum : List ℚ → List ℚ → ℚ
  | x :: xs, y :: ys => x * y + dotSum xs ys
  | _, _ => 0

/-- Sum of squares of a rational vector. -/
def sumsq (a : List ℚ) : ℚ := dotSum a a

/-- Index-value pairs `(idx, score)` built by
`store.embeddings.map((embedding, idx) => ({idx, score}))`:
`enumIdx n l` pairs the elements of `l` with indices starting at `n`. -/
def enumIdx : ℕ → List α → List (ℕ × α)
  | _, [] => []
  | n, x :: xs => (n, x) :: enumIdx (n + 1) xs

/-- One insertion step of a stable descending sort on `(idx, score)` pairs:
the element `p` is placed before the first element whose score is `≤ p`'s.
When the input is processed front-to-back this reproduces the (unique) result
of JavaScript's stable `Array.prototype.sort` under the comparator
`(a, b) => b.score - a.score`. -/
def sortInsert (p : ℕ × ℚ) : List (ℕ × ℚ) → List (ℕ × ℚ)
  | [] => [p]
  | q :: rest => if q.2 ≤ p.2 then p :: q :: rest else q :: sortInsert p rest

/-- Stable descending sort by score, modelling
`scores.sort((a, b) => b.score - a.score)` (src/unnamed/part_003 line 213). -/
def sortDesc : List (ℕ × ℚ) → List (ℕ × ℚ)
  | [] => []
  | p :: rest => sortInsert p (sortDesc rest)

/-- The score/sort/slice pipeline of `retrieveFromVectorStore`
(src/unnamed/part_003 lines 206-214): score every stored embedding against
the query embedding, sort descending by score, keep the first `topK` pairs
`(original chunk index, score)`.  The similarity function `sim` abstracts
`cosineSimilarity` (whose concrete float value is irrelevant to the ordering
contract). -/
def retrieveScored (sim : List ℚ → List ℚ → ℚ) (queryEmbedding : List ℚ)
    (storeEmbeddings : List (List ℚ)) (topK : ℕ) : List (ℕ × ℚ) :=
  (sortDesc (enumIdx 0 (storeEmbeddings.map (sim queryEmbedding)))).take topK

/-- The ranking relation the retriever must produce: strictly larger score
first, ties broken by ascending original chunk index. -/
def RankBefore (p q : ℕ × ℚ) : Prop := q.2 < p.2 ∨ (p.2 = q.2 ∧ p.1 < q.1)

/-- Per-chunk metadata written by `createVectorStore` (src/unnamed/part_003
lines 88-93): `{source: fileName, chunkIndex: idx, fileName: fileName}`. -/
structure ChunkMeta where
  source : JStr
  chunkIndex : ℕ
  fileName : JStr
deriving DecidableEq

/-- The `VectorStoreData` record of the source: parallel lists of chunks,
embedding vectors and per-chunk metadata. -/
structure VectorStoreData where
  chunks : List JStr
  embeddings : List (List ℚ)
  metadata : List ChunkMeta
deriving DecidableEq

/-- JS `Array.prototype.map` with the element index as second callback
argument, indices starting at `n`. -/
def mapIdxFrom (f : ℕ → α → β) : ℕ → List α → List β
  | _, [] => []
  | n, x :: xs => f n x :: mapIdxFrom f (n + 1) xs

/-- Assembly of the store record in `createVectorStore` (src/unnamed/part_003
lines 88-100) from the chunk list and the vectors returned by the embedding
gateway. -/
def mkStore (fileName : JStr) (chunks : List JStr) (vectors : List (List ℚ)) :
    VectorStoreData :=
  { chunks := chunks
    embeddings := vectors
    metadata := mapIdxFrom (fun idx _ => ⟨fileName, idx, fileName⟩) 0 chunks }

/-- Whitespace test used by JS `String.prototype.trim`, restricted to the
common whitespace characters. -/
def jsWhitespace (c : Char) : Bool :=
  c = ' ' ∨ c = Char.ofNat 10 ∨ c = Char.ofNat 9 ∨ c = Char.ofNat 13

/-- JS `String.prototype.trim`: strip leading and trailing whitespace. -/
def jsTrim (s : JStr) : JStr :=
  ((s.dropWhile jsWhitespace).reverse.dropWhile jsWhitespace).reverse

/-- The JSON branch of the upload route `POST` (src/app/api/upload/route.ts
lines 26-107) composed with `createVectorStore`: reject when `fileName` or
`textContent` is falsy, then reject when the trimmed text is empty, and only
otherwise chunk and embed.  The second component counts embedding-gateway
calls; the outer `Option` is `none` when `splitText` has not terminated
within `fuel` iterations. -/
def uploadPost (fileName textContent : JStr) (fuel : ℕ)
    (embed : List JStr → List (List ℚ)) : Option (Except String VectorStoreData × ℕ) :=
  if fileName = [] ∨ textContent = [] then
    some (Except.error "fileName and textContent are required", 0)
  else if (jsTrim textContent).length = 0 then
    some (Except.error "PDF contains no extractable text", 0)
  else
    (splitText textContent 1000 200 fuel).map
      (fun chunks => (Except.ok (mkStore fileName chunks (embed chunks)), 1))

/-- The vector-store state: the in-memory cache (`vectorStoreCache`) and the
durable per-`storeId` directories under `.vector_stores`, both as association
lists keyed by store id. -/
structure VSState where
  cache : List (String × VectorStoreData)
  disk : List (String × VectorStoreData)

/-- Association-list lookup, modelling `Map.get` / the per-id directory read. -/
def lookupId (id : String) : List (String × VectorStoreData) → Option VectorStoreData
  | [] => none
  | p :: rest => if p.1 = id then some p.2 else lookupId id rest

/-- Association-list removal of a key, modelling `Map.delete` / `fs.rmSync`. -/
def eraseId (id : String) : List (String × VectorStoreData) → List (String × VectorStoreData)
  | [] => []
  | p :: rest => if p.1 = id then eraseId id rest else p :: eraseId id rest

/-- `deleteVectorStore` (src/unnamed/part_003 lines 228-240): always drop the
cache entry; if the durable directory exists remove it and return `true`,
else return `false`. -/
def deleteVectorStore (s : VSState) (id : String) : Bool × VSState :=
  let cache' := eraseId id s.cache
  match lookupId id s.disk with
  | some _ => (true, ⟨cache', eraseId id s.disk⟩)
  | none => (false, ⟨cache', s.disk⟩)

/-- `loadVectorStore` (src/unnamed/part_003 lines 132-158): cache hit, else
disk read (populating the cache), else `null`. -/
def loadVectorStore (s : VSState) (id : String) : Option VectorStoreData × VSState :=
  match lookupId id s.cache with
  | some e => (some e, s)
  | none =>
    match lookupId id s.disk with
    | some e => (some e, ⟨(id, e) :: s.cache, s.disk⟩)
    | none => (none, s)

/-- `listVectorStores` (src/unnamed/part_003 lines 245-255): the ids of the
durable per-document directories. -/
def listVectorStores (s : VSState) : List String := s.disk.map Prod.fst

/-- JS truthiness fallback `s || dflt` on strings (`undefined` and the empty
string are falsy). -/
def jsOrStr (o : Option JStr) (dflt : JStr) : JStr :=
  match o with
  | some s => if s = [] then dflt else s
  | none => dflt

/-- JS truthiness fallback `n || dflt` on numbers (`undefined` and `0` are
falsy). -/
def jsOrNat (o : Option ℕ) (dflt : ℕ) : ℕ :=
  match o with
  | some n => if n = 0 then dflt else n
  | none => dflt

/-- Confidence label of a RAG response. -/
inductive Confidence
  | high
  | medium
  | low
deriving DecidableEq

/-- One citation of the structured answer. -/
structure Citation where
  text : JStr
  source : JStr
  chunkIndex : ℕ
deriving DecidableEq

/-- The structured answer returned by `chatbotGraph`. -/
structure RAGResponse where
  answer : JStr
  citations : List Citation
  confidence : Confidence
deriving DecidableEq

/-- One retrieved document as seen by the synthesizer: page content plus the
(dynamically typed) `source` and `chunkIndex` metadata fields, which may be
absent. -/
structure DocResult where
  pageContent : JStr
  source : Option JStr
  chunkIndex : Option ℕ
deriving DecidableEq

/-- The opening brace character. -/
def lbrace : Char := Char.ofNat 123

/-- The closing brace character. -/
def rbrace : Char := Char.ofNat 125

/-- Whether the model output contains a brace-delimited JSON object: the
regex used at src/app/chatbot/page.tsx line 364 matches iff some opening
brace is followed, anywhere later in the string, by a closing brace. -/
def containsJsonObject (s : JStr) : Bool :=
  match s.dropWhile (fun c => ¬ c = lbrace) with
  | [] => false
  | _ :: rest => rest.contains rbrace

/-- The parse-failure fallback of `chatbotGraph` (src/app/chatbot/page.tsx
lines 388-399): raw model text as the answer, citations fabricated from the
first three retrieved documents with 200-character prefixes and the JS `||`
defaults on `source` and `chunkIndex`, confidence `"medium"`. -/
def fallbackResponse (responseContent : JStr) (docs : List DocResult) : RAGResponse :=
  { answer := responseContent
    citations := mapIdxFrom
      (fun idx doc =>
        { text := doc.pageContent.take 200
          source := jsOrStr doc.source ("unknown").toList
          chunkIndex := jsOrNat doc.chunkIndex idx })
      0 (docs.take 3)
    confidence := Confidence.medium }

/-- Citation enrichment (src/app/chatbot/page.tsx lines 369-377): find the
first retrieved document whose `source` strictly equals the citation's
declared source and replace the citation text with the 200-character prefix
of that document's content (JS `||` keeps the model text when the prefix is
empty); keep the citation unchanged when no document matches. -/
def enrichCitation (docs : List DocResult) (c : Citation) : Citation :=
  match docs.find? (fun d => d.source == some c.source) with
  | some d => { c with text := jsOrStr (some (d.pageContent.take 200)) c.text }
  | none => c

/-- Enrich every parsed citation. -/
def enrichResponse (docs : List DocResult) (r : RAGResponse) : RAGResponse :=
  { r with citations := r.citations.map (enrichCitation docs) }

/-- The response assembly of `chatbotGraph` (src/app/chatbot/page.tsx lines
284-400) after its external calls: `docs` is the retrieval result,
`responseContent` the language-model output, and `parsed` the outcome of
`JSON.parse` on the brace-delimited substring (`none` when parsing throws or
yields a malformed shape).  Empty retrieval gives the fixed unanswerable
response; a parsed JSON object is enriched; otherwise the fallback applies. -/
def chatbotGraph (docs : List DocResult) (responseContent : JStr)
    (parsed : Option RAGResponse) : RAGResponse :=
  if docs = [] then
    { answer := ("Sorry, I couldn't find relevant information to answer your question.").toList
      citations := []
      confidence := Confidence.low }
  else
    match (if containsJsonObject responseContent then parsed else none) with
    | some r => enrichResponse docs r
    | none => fallbackResponse responseContent docs

/-- The fixed default topic list of `getSuggestedTopics`
(src/app/chatbot/page.tsx lines 446-452). -/
def defaultTopics : List JStr :=
  [("Summary").toList, ("Key findings").toList, ("Methods").toList,
   ("Conclusions").toList, ("Recommendations").toList]

/-- The prefix of `l` up to and including the last occurrence of `c` (empty
when `c` does not occur). -/
def takeThroughLast (c : Char) (l : JStr) : JStr :=
  (l.reverse.dropWhile (fun ch => ¬ ch = c)).reverse

/-- The regex `/\[.*\]/` of src/app/chatbot/page.tsx line 438: `.` does not
match newlines, so the match is the first opening bracket that has a closing
bracket later on the same line, extended greedily to the last closing bracket
on that line. -/
def bracketMatch : JStr → Option JStr
  | [] => none
  | c :: rest =>
    if c = '[' then
      let seg := rest.takeWhile (fun ch => ¬ ch = Char.ofNat 10)
      if seg.contains ']' then some ('[' :: takeThroughLast ']' seg)
      else bracketMatch rest
    else bracketMatch rest

/-- Drop leading spaces. -/
def skipSpaces (s : JStr) : JStr := s.dropWhile (fun c => c = ' ')

/-- Parse one double-quoted plain string (no escape sequences): the content
and the remainder after the closing quote. -/
def parseQuoted : JStr → Option (JStr × JStr)
  | c :: rest =>
    if c = '"' then
      let content := rest.takeWhile (fun ch => ¬ (ch = '"' ∨ ch = '\\'))
      match rest.drop content.length with
      | q :: tail => if q = '"' then some (content, tail) else none
      | [] => none
    else none
  | [] => none

/-- Parse the comma-separated items of a string array up to and including the
closing bracket; fails on trailing garbage. -/
def parseItemsGo : ℕ → JStr → Option (List JStr)
  | 0, _ => none
  | fuel + 1, s =>
    match parseQuoted (skipSpaces s) with
    | none => none
    | some (item, rest) =>
      match skipSpaces rest with
      | c :: rest' =>
        if c = ',' then (parseItemsGo fuel rest').map (fun items => item :: items)
        else if c = ']' then (if skipSpaces rest' = [] then some [item] else none)
        else none
      | [] => none

/-- `JSON.parse` restricted to flat arrays of plain strings — the only shape
`getSuggestedTopics` asks the model for; any other input is a parse failure
(`none`), which the caller treats like a thrown `JSON.parse` error. -/
def parseStringArray (s : JStr) : Option (List JStr) :=
  match skipSpaces s with
  | c :: rest =>
    if c = '[' then
      match skipSpaces rest with
      | [] => none
      | d :: tail =>
        if d = ']' then (if skipSpaces tail = [] then some [] else none)
        else parseItemsGo (rest.length + 1) (d :: tail)
    else none
  | [] => none

/-- `getSuggestedTopics` (src/app/chatbot/page.tsx lines 405-453) after its
external calls: `retrieval` is the outcome of `retrieveFromVectorStore`
(`none` when it threw), `llmResponse` the model output (`none` when the
invoke threw).  Every failure path yields the fixed default topics; a
successfully matched and parsed array is returned as-is. -/
def getSuggestedTopics (retrieval : Option (List DocResult))
    (llmResponse : Option JStr) : List JStr :=
  match retrieval with
  | none => defaultTopics
  | some _ =>
    match llmResponse with
    | none => defaultTopics
    | some content =>
      match bracketMatch content with
      | none => defaultTopics
      | some matched =>
        match parseStringArray matched with
        | some topics => topics
        | none => defaultTopics

theorem splitTextGo_none_of_pos_overlap (text : JStr) (chunkSize chunkOverlap : ℕ)
    (hov : 1 ≤ chunkOverlap) :
    ∀ fuel startIndex chunks, startIndex < text.length →
      splitTextGo text chunkSize chunkOverlap fuel startIndex chunks = none := by
  intro fuel
  induction fuel with
  | zero => intro s c _; rfl
  | succ n ih =>
    intro s c hs
    have hlen : 1 ≤ text.length := Nat.lt_of_le_of_lt (Nat.zero_le s) hs
    have hend : min (s + chunkSize) text.length ≤ text.length := Nat.min_le_right _ _
    have hlt : min (s + chunkSize) text.length - chunkOverlap < text.length := by
      have h1 : min (s + chunkSize) text.length - chunkOverlap ≤ text.length - 1 :=
        tsub_le_tsub hend hov
      exact Nat.lt_of_le_of_lt h1 (Nat.sub_lt hlen Nat.one_pos)
    simp only [splitTextGo, hs, if_pos, if_true]
    rw [if_neg (Nat.not_le_of_lt hlt)]
    exact ih _ _ hlt

/-- Claim C1: the chunker's split function does NOT terminate on the defaults.
For the default configuration `chunkSize = 1000`, `overlap = 200` and the
one-character text `"a"`, the loop of `splitText` runs out of any amount of
fuel: after the truncated final window is emitted, the start position is reset
to `max 0 (text.length - 200) < text.length`, and — the code having no guard
against a non-advancing start — the loop repeats forever.  This contradicts
the claimed stop condition. -/
theorem splitText_diverges_on_default_config :
    ∀ fuel, splitText [Char.ofNat 97] 1000 200 fuel = none := by
  intro fuel
  exact splitTextGo_none_of_pos_overlap _ 1000 200 (by norm_num) fuel 0 [] (by simp)

/-- Claim C2: because `splitText` never returns on any nonempty text whenever
`overlap ≥ 1` (here the valid pair `chunkSize = 2 > overlap = 1 ≥ 0` on the
two-character text `"ab"`), there is no returned chunk sequence to
concatenate: the coverage property fails for every valid pair with positive
overlap. -/
theorem splitText_no_chunks_for_valid_pair :
    ∀ fuel, splitText [Char.ofNat 97, Char.ofNat 98] 2 1 fuel = none := by
  intro fuel
  exact splitTextGo_none_of_pos_overlap _ 2 1 (by norm_num) fuel 0 [] (by simp)

theorem jsAdd_none_right (d : Option ℚ) : jsAdd d none = none := by
  cases d <;> rfl

theorem cosineGo_fst_none (a : List ℚ) :
    ∀ (ys : List ℚ) (acc : Option ℚ × Option ℚ × Option ℚ),
      acc.1 = none → (cosineGo a ys acc).1 = none := by
  induction a with
  | nil => intro ys acc h; exact h
  | cons x xs ih =>
    intro ys acc h
    obtain ⟨d, na, nb⟩ := acc
    simp only at h
    subst h
    exact ih _ _ rfl

theorem cosineGo_fst_none_of_short (a : List ℚ) :
    ∀ (b : List ℚ) (acc : Option ℚ × Option ℚ × Option ℚ),
      b.length < a.length → (cosineGo a b acc).1 = none := by
  induction a with
  | nil => intro b acc h; exact absurd h (Nat.not_lt_zero _)
  | cons x xs ih =>
    intro b acc h
    obtain ⟨d, na, nb⟩ := acc
    cases b with
    | nil =>
      simp only [cosineGo, List.head?, List.tail]
      exact cosineGo_fst_none xs [] _ (by simp [jsAdd_none_right, jsMul])
    | cons y ys =>
      simp only [cosineGo, List.head?, List.tail]
      exact ih ys _ (Nat.lt_of_succ_lt_succ h)

theorem cosineGo_some (a : List ℚ) :
    ∀ (b : List ℚ), a.length ≤ b.length → ∀ d na nb : ℚ,
      cosineGo a b (some d, some na, some nb) =
        (some (d + dotSum a b), some (na + sumsq a), some (nb + sumsq (b.take a.length))) := by
  induction a with
  | nil =>
    intro b _ d na nb
    simp [cosineGo, dotSum, sumsq]
  | cons x xs ih =>
    intro b hb d na nb
    cases b with
    | nil => exact absurd hb (by simp)
    | cons y ys =>
      have hb' : xs.length ≤ ys.length := Nat.le_of_succ_le_succ hb
      simp only [cosineGo, List.head?, List.tail, jsAdd, jsMul]
      rw [ih ys hb']
      simp only [List.length_cons, List.take_succ_cons, sumsq, dotSum]
      simp [add_assoc]

theorem cosineGo_take (a : List ℚ) :
    ∀ (b : List ℚ) (acc : Option ℚ × Option ℚ × Option ℚ),
      cosineGo a b acc = cosineGo a (b.take a.length) acc := by
  induction a with
  | nil => intro b acc; rfl
  | cons x xs ih =>
    intro b acc
    cases b with
    | nil => rfl
    | cons y ys =>
      obtain ⟨d, na, nb⟩ := acc
      simp only [cosineGo, List.length_cons, List.take_succ_cons, List.head?, List.tail]
      exact ih ys _

/-- Claim C10: `cosineSimilarity` is total: the loop only runs over the
indices of `a`.  Its accumulators are `NaN` (`none`) exactly when `a` is
strictly longer than `b` (an out-of-range read of `b` poisons `dotProduct`
and `normB`); trailing components of a longer `b` are silently ignored; and
for equal lengths the returned score is exactly
`dot(a,b) / (sqrt(dot(a,a)) * sqrt(dot(b,b)) + 1e-10)`. -/
theorem cosineSimilarity_total_shape (a b : List ℚ) :
    (cosineParts a b = none ↔ b.length < a.length) ∧
    cosineParts a b = cosineParts a (b.take a.length) ∧
    (a.length = b.length →
      (cosineParts a b).map
          (fun p => (p.1 : ℝ) / (Real.sqrt p.2.1 * Real.sqrt p.2.2 + 1 / 10 ^ 10))
        = some ((dotSum a b : ℝ) /
            (Real.sqrt (sumsq a) * Real.sqrt (sumsq b) + 1 / 10 ^ 10))) := by
  refine ⟨⟨fun hnone => ?_, fun hlt => ?_⟩, ?_, fun heq => ?_⟩
  · by_contra hnlt
    have hle : a.length ≤ b.length := Nat.le_of_not_lt hnlt
    rw [cosineParts, cosineGo_some a b hle 0 0 0] at hnone
    simp at hnone
  · have h1 : (cosineGo a b (some 0, some 0, some 0)).1 = none :=
      cosineGo_fst_none_of_short a b _ hlt
    rw [cosineParts]
    rcases hgo : cosineGo a b (some 0, some 0, some 0) with ⟨d, na, nb⟩
    rw [hgo] at h1
    simp only at h1
    subst h1
    cases na <;> cases nb <;> rfl
  · rw [cosineParts, cosineParts, ← cosineGo_take]
  · have hle : a.length ≤ b.length := Nat.le_of_eq heq
    have htake : b.take a.length = b := by rw [heq, List.take_length]
    rw [cosineParts, cosineGo_some a b hle 0 0 0, htake]
    simp [sumsq]

/-- Claim C10 witness: with `a` strictly longer than `b`, the out-of-range
read makes the score `NaN` (`none`). -/
theorem cosineSimilarity_total_shape_witness : cosineParts [1, 2] [1] = none :=
  (cosineSimilarity_total_shape [1, 2] [1]).1.mpr (by norm_num)

theorem mem_sortInsert (p x : ℕ × ℚ) :
    ∀ l, x ∈ sortInsert p l ↔ x = p ∨ x ∈ l := by
  intro l
  induction l with
  | nil => simp [sortInsert]
  | cons q rest ih =>
    rw [sortInsert]
    by_cases hle : q.2 ≤ p.2
    · rw [if_pos hle]
      exact List.mem_cons
    · rw [if_neg hle]
      simp only [List.mem_cons, ih]
      tauto

theorem length_sortInsert (p : ℕ × ℚ) :
    ∀ l, (sortInsert p l).length = l.length + 1 := by
  intro l
  induction l with
  | nil => rfl
  | cons q rest ih =>
    rw [sortInsert]
    by_cases hle : q.2 ≤ p.2
    · rw [if_pos hle]; simp
    · rw [if_neg hle]; simp [ih]

theorem mem_sortDesc (l : List (ℕ × ℚ)) (x : ℕ × ℚ) :
    x ∈ sortDesc l ↔ x ∈ l := by
  induction l with
  | nil => rfl
  | cons p rest ih =>
    rw [sortDesc, mem_sortInsert, ih, List.mem_cons]

theorem length_sortDesc : ∀ l : List (ℕ × ℚ), (sortDesc l).length = l.length := by
  intro l
  induction l with
  | nil => rfl
  | cons p rest ih => rw [sortDesc, length_sortInsert, ih, List.length_cons]

theorem pairwise_sortInsert (p : ℕ × ℚ) :
    ∀ l : List (ℕ × ℚ), (∀ q ∈ l, p.1 < q.1) → l.Pairwise RankBefore →
      (sortInsert p l).Pairwise RankBefore := by
  intro l
  induction l with
  | nil => intro _ _; simp [sortInsert]
  | cons q rest ih =>
    intro hidx hpw
    rw [List.pairwise_cons] at hpw
    obtain ⟨hq, hrest⟩ := hpw
    rw [sortInsert]
    by_cases hle : q.2 ≤ p.2
    · rw [if_pos hle]
      refine List.Pairwise.cons ?_ (List.Pairwise.cons hq hrest)
      intro r hr
      rcases List.mem_cons.mp hr with rfl | hr'
      · rcases lt_or_eq_of_le hle with h | h
        · exact Or.inl h
        · exact Or.inr ⟨h.symm, hidx r (List.mem_cons_self r rest)⟩
      · rcases hq r hr' with h | h
        · exact Or.inl (lt_of_lt_of_le h hle)
        · have hr2 : r.2 ≤ p.2 := le_trans (le_of_eq h.1.symm) hle
          rcases lt_or_eq_of_le hr2 with h2 | h2
          · exact Or.inl h2
          · exact Or.inr ⟨h2.symm, hidx r (List.mem_cons_of_mem q hr')⟩
    · rw [if_neg hle]
      refine List.Pairwise.cons ?_ (ih (fun q' hq' => hidx q' (List.mem_cons_of_mem q hq')) hrest)
      intro r hr
      rcases (mem_sortInsert p r rest).mp hr with rfl | hr'
      · exact Or.inl (not_le.mp hle)
      · exact hq r hr'

theorem pairwise_sortDesc :
    ∀ l : List (ℕ × ℚ), l.Pairwise (fun p q => p.1 < q.1) →
      (sortDesc l).Pairwise RankBefore := by
  intro l
  induction l with
  | nil => intro _; simp [sortDesc]
  | cons p rest ih =>
    intro hpw
    rw [List.pairwise_cons] at hpw
    obtain ⟨hp, hrest⟩ := hpw
    rw [sortDesc]
    exact pairwise_sortInsert p _ (fun q hq => hp q ((mem_sortDesc rest q).mp hq)) (ih hrest)

theorem length_enumIdx : ∀ (l : List α) (n : ℕ), (enumIdx n l).length = l.length := by
  intro l
  induction l with
  | nil => intro n; rfl
  | cons x xs ih => intro n; simp [enumIdx, ih]

theorem mem_enumIdx_le : ∀ (l : List α) (n : ℕ) (q : ℕ × α), q ∈ enumIdx n l → n ≤ q.1 := by
  intro l
  induction l with
  | nil => intro n q h; simp [enumIdx] at h
  | cons x xs ih =>
    intro n q h
    rcases List.mem_cons.mp h with rfl | h'
    · exact le_refl n
    · exact Nat.le_of_succ_le (ih (n + 1) q h')

theorem pairwise_enumIdx : ∀ (l : List α) (n : ℕ),
    (enumIdx n l).Pairwise (fun p q => p.1 < q.1) := by
  intro l
  induction l with
  | nil => intro n; simp [enumIdx]
  | cons x xs ih =>
    intro n
    rw [enumIdx, List.pairwise_cons]
    exact ⟨fun q hq => Nat.lt_of_lt_of_le (Nat.lt_succ_self n) (mem_enumIdx_le xs (n + 1) q hq),
      ih (n + 1)⟩

theorem mem_enumIdx_getElem : ∀ (l : List α) (n : ℕ) (q : ℕ × α),
    q ∈ enumIdx n l → l[q.1 - n]? = some q.2 := by
  intro l
  induction l with
  | nil => intro n q h; simp [enumIdx] at h
  | cons x xs ih =>
    intro n q h
    rcases List.mem_cons.mp h with rfl | h'
    · simp
    · have hn : n + 1 ≤ q.1 := mem_enumIdx_le xs (n + 1) q h'
      have hk : q.1 - n = (q.1 - (n + 1)) + 1 := by omega
      rw [hk, List.getElem?_cons_succ]
      exact ih (n + 1) q h'

/-- Claim C3: for every store of `n` scored embeddings and every `topK`, the
retriever's sort/slice pipeline returns exactly `min topK n` pairs, in
strictly descending score order with ties broken by ascending original chunk
index, and each returned pair carries the genuine score of the chunk at its
original index. -/
theorem retrieve_topK_sorted (sim : List ℚ → List ℚ → ℚ) (query : List ℚ)
    (embeds : List (List ℚ)) (topK : ℕ) :
    (retrieveScored sim query embeds topK).length = min topK embeds.length ∧
    (retrieveScored sim query embeds topK).Pairwise RankBefore ∧
    ∀ p ∈ retrieveScored sim query embeds topK,
      (embeds.map (sim query))[p.1]? = some p.2 := by
  refine ⟨?_, ?_, ?_⟩
  · rw [retrieveScored, List.length_take, length_sortDesc, length_enumIdx, List.length_map]
  · exact List.Pairwise.sublist (List.take_sublist _ _)
      (pairwise_sortDesc _ (pairwise_enumIdx _ 0))
  · intro p hp
    have h1 : p ∈ sortDesc (enumIdx 0 (embeds.map (sim query))) :=
      (List.take_sublist _ _).subset hp
    have h2 : p ∈ enumIdx 0 (embeds.map (sim query)) := (mem_sortDesc _ _).mp h1
    simpa using mem_enumIdx_getElem _ 0 p h2

theorem lookupId_eraseId (id : String) :
    ∀ l, lookupId id (eraseId id l) = none := by
  intro l
  induction l with
  | nil => rfl
  | cons p rest ih =>
    rw [eraseId]
    by_cases hp : p.1 = id
    · rw [if_pos hp]; exact ih
    · rw [if_neg hp, lookupId, if_neg hp]; exact ih

theorem not_mem_map_eraseId (id : String) :
    ∀ l, id ∉ (eraseId id l).map Prod.fst := by
  intro l
  induction l with
  | nil => simp [eraseId]
  | cons p rest ih =>
    rw [eraseId]
    by_cases hp : p.1 = id
    · rw [if_pos hp]; exact ih
    · rw [if_neg hp]
      simp only [List.map_cons, List.mem_cons]
      rintro (h | h)
      · exact hp h.symm
      · exact ih h

theorem lookupId_eq_none_of_not_mem (id : String) :
    ∀ l, lookupId id l = none → id ∉ l.map Prod.fst := by
  intro l
  induction l with
  | nil => intro _; simp
  | cons p rest ih =>
    intro h
    rw [lookupId] at h
    by_cases hp : p.1 = id
    · rw [if_pos hp] at h; exact absurd h (by simp)
    · rw [if_neg hp] at h
      simp only [List.map_cons, List.mem_cons]
      rintro (hh | hh)
      · exact hp hh.symm
      · exact ih h hh

/-- Claim C6: `deleteVectorStore` returns `true` exactly when a durable entry
existed, and after deletion `loadVectorStore` finds nothing (the cache entry
is dropped unconditionally, the directory when present) and the id is absent
from `listVectorStores`. -/
theorem deleteVectorStore_spec (s : VSState) (id : String) :
    ((deleteVectorStore s id).1 = true ↔ (lookupId id s.disk).isSome) ∧
    (loadVectorStore (deleteVectorStore s id).2 id).1 = none ∧
    id ∉ listVectorStores (deleteVectorStore s id).2 := by
  rcases hdisk : lookupId id s.disk with _ | e
  · refine ⟨?_, ?_, ?_⟩
    · rw [deleteVectorStore, hdisk]
      simp
    · rw [deleteVectorStore, hdisk]
      simp only [loadVectorStore, lookupId_eraseId, hdisk]
    · rw [deleteVectorStore, hdisk]
      exact lookupId_eq_none_of_not_mem id s.disk hdisk
  · refine ⟨?_, ?_, ?_⟩
    · rw [deleteVectorStore, hdisk]
      simp
    · rw [deleteVectorStore, hdisk]
      simp only [loadVectorStore, lookupId_eraseId]
    · rw [deleteVectorStore, hdisk]
      exact not_mem_map_eraseId id s.disk

/-- Claim C4: on empty or whitespace-only input text the upload/index path
rejects the request before any embedding-gateway call is made (the call
counter is 0) and creates no store entry (the result is an error, not an
entry). -/
theorem createIndex_rejects_empty (fileName textContent : JStr) (fuel : ℕ)
    (embed : List JStr → List (List ℚ)) (h : (jsTrim textContent).length = 0) :
    ∃ msg, uploadPost fileName textContent fuel embed = some (Except.error msg, 0) := by
  rw [uploadPost]
  by_cases h0 : fileName = [] ∨ textContent = []
  · rw [if_pos h0]
    exact ⟨_, rfl⟩
  · rw [if_neg h0, if_pos h]
    exact ⟨_, rfl⟩

/-- Claim C4 witness: a whitespace-only document is rejected with zero
embedding calls. -/
theorem createIndex_rejects_empty_witness :
    ∃ msg, uploadPost ("doc.pdf").toList ("  ").toList 0 (fun _ => [])
      = some (Except.error msg, 0) :=
  createIndex_rejects_empty ("doc.pdf").toList ("  ").toList 0 (fun _ => []) (by decide)

theorem length_mapIdxFrom (f : ℕ → α → β) :
    ∀ (l : List α) (n : ℕ), (mapIdxFrom f n l).length = l.length := by
  intro l
  induction l with
  | nil => intro n; rfl
  | cons x xs ih => intro n; simp [mapIdxFrom, ih]

theorem getElem?_mapIdxFrom (f : ℕ → α → β) :
    ∀ (l : List α) (n i : ℕ), (mapIdxFrom f n l)[i]? = Option.map (f (n + i)) l[i]? := by
  intro l
  induction l with
  | nil => intro n i; simp [mapIdxFrom]
  | cons x xs ih =>
    intro n i
    cases i with
    | zero => simp [mapIdxFrom]
    | succ j =>
      simp only [mapIdxFrom, List.getElem?_cons_succ, ih (n + 1) j]
      have hnj : n + 1 + j = n + (j + 1) := by omega
      rw [hnj]

/-- Claim C5: whatever chunk list the splitter produced and whatever vectors
the embedding gateway returned for it (one vector per chunk, in order), the
assembled Vector Store Entry has three parallel lists of equal length and
`metadata[i].chunkIndex = i` for every index. -/
theorem createIndex_entry_invariant (fileName : JStr) (chunks : List JStr)
    (vectors : List (List ℚ)) (h : vectors.length = chunks.length) :
    (mkStore fileName chunks vectors).chunks.length
        = (mkStore fileName chunks vectors).embeddings.length ∧
    (mkStore fileName chunks vectors).chunks.length
        = (mkStore fileName chunks vectors).metadata.length ∧
    ∀ i (hi : i < (mkStore fileName chunks vectors).metadata.length),
      ((mkStore fileName chunks vectors).metadata.get ⟨i, hi⟩).chunkIndex = i := by
  refine ⟨h.symm, (length_mapIdxFrom _ chunks 0).symm, fun i hi => ?_⟩
  have hl : i < chunks.length := by
    simpa [mkStore, length_mapIdxFrom] using hi
  have h1 := getElem?_mapIdxFrom
    (fun idx _ => (⟨fileName, idx, fileName⟩ : ChunkMeta)) chunks 0 i
  have hi2 : i < (mapIdxFrom (fun idx _ => (⟨fileName, idx, fileName⟩ : ChunkMeta)) 0 chunks).length := hi
  rw [List.getElem?_eq_getElem hi2, List.getElem?_eq_getElem hl] at h1
  simp only [Option.map_some', Option.some.injEq] at h1
  have h2 : (mkStore fileName chunks vectors).metadata.get ⟨i, hi⟩
      = (mapIdxFrom (fun idx _ => (⟨fileName, idx, fileName⟩ : ChunkMeta)) 0 chunks)[i] := by
    simp [mkStore, List.get_eq_getElem]
  rw [h2, h1]
  exact Nat.zero_add i

/-- Claim C5 witness: a concrete two-chunk entry satisfies the invariant. -/
theorem createIndex_entry_invariant_witness :
    (mkStore ("doc.pdf").toList [['a'], ['b']] [[1], [2]]).chunks.length
        = (mkStore ("doc.pdf").toList [['a'], ['b']] [[1], [2]]).embeddings.length ∧
    (mkStore ("doc.pdf").toList [['a'], ['b']] [[1], [2]]).chunks.length
        = (mkStore ("doc.pdf").toList [['a'], ['b']] [[1], [2]]).metadata.length ∧
    ∀ i (hi : i < (mkStore ("doc.pdf").toList [['a'], ['b']] [[1], [2]]).metadata.length),
      ((mkStore ("doc.pdf").toList [['a'], ['b']] [[1], [2]]).metadata.get ⟨i, hi⟩).chunkIndex = i :=
  createIndex_entry_invariant ("doc.pdf").toList [['a'], ['b']] [[1], [2]] (by decide)

theorem getElem?_take_lt : ∀ (l : List α) (n i : ℕ), i < n → (l.take n)[i]? = l[i]? := by
  intro l
  induction l with
  | nil => intro n i _; simp
  | cons x xs ih =>
    intro n i h
    cases n with
    | zero => omega
    | succ m =>
      cases i with
      | zero => simp
      | succ j =>
        simp only [List.take_succ_cons, List.getElem?_cons_succ]
        exact ih m j (Nat.lt_of_succ_lt_succ h)

theorem get_mapIdxFrom (f : ℕ → α → β) (l : List α) (i : ℕ)
    (hi : i < (mapIdxFrom f 0 l).length) (hl : i < l.length) :
    (mapIdxFrom f 0 l).get ⟨i, hi⟩ = f i (l.get ⟨i, hl⟩) := by
  have h1 := getElem?_mapIdxFrom f l 0 i
  rw [List.getElem?_eq_getElem hi, List.getElem?_eq_getElem hl] at h1
  simp only [Option.map_some', Option.some.injEq] at h1
  simpa [List.get_eq_getElem] using h1

theorem get_take_lt (l : List α) (n i : ℕ) (hti : i < (l.take n).length)
    (hl : i < l.length) (hn : i < n) :
    (l.take n).get ⟨i, hti⟩ = l.get ⟨i, hl⟩ := by
  have h1 := getElem?_take_lt l n i hn
  rw [List.getElem?_eq_getElem hti, List.getElem?_eq_getElem hl] at h1
  simp only [Option.some.injEq] at h1
  simp [List.get_eq_getElem, h1]

/-- Claim C7 counterexample: in the parse-failure fallback, a retrieved chunk
whose real chunk index is `0` but whose position in the retrieved list is `1`
is cited with chunk index `1` — a value that is the real chunk index of none
of the retrieved chunks (their indices are `7` and `0`).  The JS expression
`(doc.metadata.chunkIndex as number) || idx` treats the real index `0` as
falsy. -/
theorem chatbot_fallback_chunkIndex_not_real :
    ((chatbotGraph
        [⟨("alpha").toList, some ("doc.pdf").toList, some 7⟩,
         ⟨("beta").toList, some ("doc.pdf").toList, some 0⟩]
        ("hello").toList none).citations.map (fun c => c.chunkIndex) = [7, 1]) ∧
    ∀ d ∈ ([⟨("alpha").toList, some ("doc.pdf").toList, some 7⟩,
            ⟨("beta").toList, some ("doc.pdf").toList, some 0⟩] : List DocResult),
      ¬ d.chunkIndex = some 1 := by
  decide

/-- Claim C7 (amended): when the model output contains no JSON object the
synthesizer returns the raw text with confidence "medium" and exactly
`min 3 n` citations; citation `i` carries the 200-character prefix (hence at
most 200 characters) of retrieved chunk `i`, the chunk's source name unless
it is missing or empty (then `"unknown"`), and the chunk's real index unless
that index is missing or `0`, in which case the citation's position `i` is
used instead. -/
theorem chatbot_parse_failure_fallback (content : JStr) (docs : List DocResult)
    (parsed : Option RAGResponse) (hjson : containsJsonObject content = false)
    (hne : docs ≠ []) :
    (chatbotGraph docs content parsed).answer = content ∧
    (chatbotGraph docs content parsed).confidence = Confidence.medium ∧
    (chatbotGraph docs content parsed).citations.length = min 3 docs.length ∧
    ∀ i (hi : i < (chatbotGraph docs content parsed).citations.length)
        (hd : i < docs.length),
      ((chatbotGraph docs content parsed).citations.get ⟨i, hi⟩).text
          = (docs.get ⟨i, hd⟩).pageContent.take 200 ∧
      ((chatbotGraph docs content parsed).citations.get ⟨i, hi⟩).text.length ≤ 200 ∧
      ((chatbotGraph docs content parsed).citations.get ⟨i, hi⟩).source
          = jsOrStr (docs.get ⟨i, hd⟩).source ("unknown").toList ∧
      ((chatbotGraph docs content parsed).citations.get ⟨i, hi⟩).chunkIndex
          = jsOrNat (docs.get ⟨i, hd⟩).chunkIndex i := by
  have hcg : chatbotGraph docs content parsed = fallbackResponse content docs := by
    simp [chatbotGraph, hne, hjson]
  rw [hcg]
  refine ⟨rfl, rfl, ?_, ?_⟩
  · simp [fallbackResponse, length_mapIdxFrom, List.length_take]
  · intro i hi hd
    have hlen : (fallbackResponse content docs).citations.length = min 3 docs.length := by
      simp [fallbackResponse, length_mapIdxFrom, List.length_take]
    have hi3 : i < 3 := lt_of_lt_of_le (hlen ▸ hi) (min_le_left _ _)
    have hti : i < (docs.take 3).length := by
      simp only [List.length_take, lt_min_iff]
      exact ⟨hi3, hd⟩
    have hget : (fallbackResponse content docs).citations.get ⟨i, hi⟩
        = { text := (docs.get ⟨i, hd⟩).pageContent.take 200
            source := jsOrStr (docs.get ⟨i, hd⟩).source ("unknown").toList
            chunkIndex := jsOrNat (docs.get ⟨i, hd⟩).chunkIndex i } := by
      have h1 : (fallbackResponse content docs).citations.get ⟨i, hi⟩
          = (mapIdxFrom
              (fun idx doc =>
                ({ text := doc.pageContent.take 200
                   source := jsOrStr doc.source ("unknown").toList
                   chunkIndex := jsOrNat doc.chunkIndex idx } : Citation))
              0 (docs.take 3)).get ⟨i, hlen ▸ hi⟩ := rfl
      rw [h1, get_mapIdxFrom _ (docs.take 3) i _ hti, get_take_lt docs 3 i hti hd hi3]
    rw [hget]
    exact ⟨rfl, by simp [List.length_take], rfl, rfl⟩

/-- Claim C7 witness: on a concrete one-chunk retrieval and a JSON-free model
output, the fallback answer is the raw text with confidence "medium". -/
theorem chatbot_parse_failure_fallback_witness :
    (chatbotGraph [⟨("alpha").toList, some ("doc.pdf").toList, some 7⟩]
        ("hello").toList none).answer = ("hello").toList ∧
    (chatbotGraph [⟨("alpha").toList, some ("doc.pdf").toList, some 7⟩]
        ("hello").toList none).confidence = Confidence.medium := by
  have h := chatbot_parse_failure_fallback ("hello").toList
    [⟨("alpha").toList, some ("doc.pdf").toList, some 7⟩] none (by decide) (by decide)
  exact ⟨h.1, h.2.1⟩

theorem take_ne_nil_of_ne_nil {l : JStr} (h : l ≠ []) : l.take 200 ≠ [] := by
  cases l with
  | nil => exact absurd rfl h
  | cons x xs => simp

/-- Claim C8: on the parse-success path, a parsed citation whose declared
source strictly equals the `source` of some retrieved chunk gets its text
replaced by the 200-character prefix of the first such chunk's (nonempty)
content, keeping its declared source and chunk index; a citation matching no
retrieved chunk is returned verbatim; and whenever the model output contains
a JSON object that parses, the whole response is the enrichment of the parsed
one. -/
theorem citation_enrichment (docs : List DocResult) (c : Citation) (d : DocResult)
    (content : JStr) (r : RAGResponse) :
    (docs.find? (fun x => x.source == some c.source) = some d → d.pageContent ≠ [] →
      enrichCitation docs c =
        { text := d.pageContent.take 200, source := c.source, chunkIndex := c.chunkIndex }) ∧
    (docs.find? (fun x => x.source == some c.source) = none →
      enrichCitation docs c = c) ∧
    (containsJsonObject content = true → docs ≠ [] →
      chatbotGraph docs content (some r) = enrichResponse docs r) := by
  refine ⟨fun hfind hne => ?_, fun hfind => ?_, fun hjson hne => ?_⟩
  · simp [enrichCitation, hfind, jsOrStr, take_ne_nil_of_ne_nil hne]
  · rw [enrichCitation, hfind]
  · simp [chatbotGraph, hne, hjson]

/-- Claim C8 witness: a concrete matching citation gets the chunk's
200-character prefix; a concrete non-matching one is kept verbatim. -/
theorem citation_enrichment_witness :
    enrichCitation [⟨("REAL CHUNK CONTENT").toList, some ("src.pdf").toList, some 0⟩]
        ⟨("model text").toList, ("src.pdf").toList, 0⟩
      = { text := (("REAL CHUNK CONTENT").toList).take 200
          source := ("src.pdf").toList, chunkIndex := 0 } ∧
    enrichCitation [⟨("REAL CHUNK CONTENT").toList, some ("src.pdf").toList, some 0⟩]
        ⟨("model text").toList, ("other.pdf").toList, 3⟩
      = ⟨("model text").toList, ("other.pdf").toList, 3⟩ := by
  constructor
  · exact (citation_enrichment
      [⟨("REAL CHUNK CONTENT").toList, some ("src.pdf").toList, some 0⟩]
      ⟨("model text").toList, ("src.pdf").toList, 0⟩
      ⟨("REAL CHUNK CONTENT").toList, some ("src.pdf").toList, some 0⟩
      [] ⟨[], [], Confidence.low⟩).1 (by decide) (by decide)
  · exact (citation_enrichment
      [⟨("REAL CHUNK CONTENT").toList, some ("src.pdf").toList, some 0⟩]
      ⟨("model text").toList, ("other.pdf").toList, 3⟩
      ⟨("REAL CHUNK CONTENT").toList, some ("src.pdf").toList, some 0⟩
      [] ⟨[], [], Confidence.low⟩).2.1 (by decide)

/-- Claim C9 counterexample: when the model returns a parsable JSON array of
six strings, `getSuggestedTopics` returns all six topics — the claimed
"at most 5" bound is not enforced by the code. -/
theorem topics_more_than_five :
    (getSuggestedTopics (some [])
        (some ("[\"a\",\"b\",\"c\",\"d\",\"e\",\"f\"]").toList)).length = 6 := by
  decide

/-- Claim C9 (amended): `getSuggestedTopics` never propagates a failure: it
returns the fixed default list of five generic topics whenever retrieval, the
model call, the bracket match or the JSON parse fails, and returns the parsed
array as-is — of whatever length, the ≤5 bound being unenforced — when every
step succeeds. -/
theorem topics_default_on_failure (retrieval : Option (List DocResult))
    (llm : Option JStr) :
    defaultTopics.length = 5 ∧
    (retrieval = none → getSuggestedTopics retrieval llm = defaultTopics) ∧
    (llm = none → getSuggestedTopics retrieval llm = defaultTopics) ∧
    (∀ content, llm = some content → bracketMatch content = none →
        getSuggestedTopics retrieval llm = defaultTopics) ∧
    (∀ content matched, llm = some content → bracketMatch content = some matched →
        parseStringArray matched = none →
        getSuggestedTopics retrieval llm = defaultTopics) ∧
    (∀ content matched topics, retrieval ≠ none → llm = some content →
        bracketMatch content = some matched → parseStringArray matched = some topics →
        getSuggestedTopics retrieval llm = topics) := by
  refine ⟨rfl, ?_, ?_, ?_, ?_, ?_⟩
  · rintro rfl
    rfl
  · rintro rfl
    cases retrieval <;> rfl
  · rintro content rfl hbm
    cases retrieval with
    | none => rfl
    | some docs => simp [getSuggestedTopics, hbm]
  · rintro content matched rfl hbm hp
    cases retrieval with
    | none => rfl
    | some docs => simp [getSuggestedTopics, hbm, hp]
  · rintro content matched topics hr rfl hbm hp
    cases retrieval with
    | none => exact absurd rfl hr
    | some docs => simp [getSuggestedTopics, hbm, hp]

/-- Claim C9 witness: with failing retrieval the default five topics are
returned. -/
theorem topics_default_on_failure_witness :
    getSuggestedTopics none none = defaultTopics :=
  (topics_default_on_failure none none).2.1 rfl
